import Mathlib

/-!
Verification of the tunnel core of `drillbit`.

The development shallowly embeds the parts of the program that the spec's
claims talk about:

* `ports.go` — the deterministic local-port allocator (`hashPort`,
  `AssignPorts`);
* `tunnel.go` (`sshPool`) — the reference-counted shared SSH connection pool
  (`Acquire`, `Release`, `Dead`);
* `tunnel.go` (`TunnelManager`) — the tunnel registry and its lifecycle
  operations (`Connect`, `Disconnect`, `MonitorTunnel`, `DisconnectAll`,
  `closeTunnel`, `forward`).

Go maps guarded by a mutex are modelled as association lists; the code's
critical sections (which hold the mutex and never block) become pure
functions on that state.  External effects — dialing SSH, resolving the
container IP, binding a local listener — are passed in as `Option` results.
Machine integers are modelled as `Nat` (with an explicit `% 2^16` where the
Go code uses `uint16` arithmetic) and `Int` for Go's `int`.
The bidirectional relay `forward` is modelled as a small labelled transition
system so that ordering claims about its two copy goroutines can be stated.
-/

namespace Drillbit

/-! ## Port allocator (`ports.go`) -/

/-- `portRangeMin` from `ports.go`. -/
def portRangeMin : Nat := 10000

/-- `portRangeMax` from `ports.go`. -/
def portRangeMax : Nat := 65535

/-- `portRange = portRangeMax - portRangeMin + 1` from `ports.go`. -/
def portRange : Nat := portRangeMax - portRangeMin + 1

/-- UTF-8 encoding of one character, as the list of its byte values.
Go strings are byte strings; `fmt.Fprintf` writes the UTF-8 bytes of its
arguments into the hash. -/
def charUtf8 (c : Char) : List Nat :=
  let n := c.toNat
  if n < 128 then [n]
  else if n < 2048 then [192 + n / 64, 128 + n % 64]
  else if n < 65536 then [224 + n / 4096, 128 + (n / 64) % 64, 128 + n % 64]
  else [240 + n / 262144, 128 + (n / 4096) % 64, 128 + (n / 64) % 64, 128 + n % 64]

/-- The UTF-8 bytes of a string, i.e. the bytes a Go `string` holds. -/
def stringBytes (s : String) : List Nat := s.data.flatMap charUtf8

/-- 32-bit FNV-1a over a byte sequence: `h := (h XOR b) * 16777619 mod 2^32`
starting from the offset basis, exactly what `fnv.New32a` + writes +
`Sum32()` compute in `hashPort`. -/
def fnv32a (bs : List Nat) : Nat :=
  bs.foldl (fun h b => ((Nat.xor h b) * 16777619) % 4294967296) 2166136261

/-- The fields of `Entry` (`main.go`) that the port allocator and the tunnel
key depend on.  The remaining fields (`Env`, `Root`, `Password`,
`ContainerIP`, `Status`, `Error`) play no part in port assignment or keying
and are omitted.  `LocalPort` is a Go `uint16`, modelled as `Nat`; all
values the program stores in it are `< 2^16`. -/
structure Entry where
  Host : String
  Tenant : String
  LocalPort : Nat := 0
deriving DecidableEq, Repr

/-- The composite key `e.Host + ":" + e.Tenant` (`tunnelKey` in `tunnel.go`;
the same string is built inline by `AssignPorts` and `hashPort` in
`ports.go`). -/
def tunnelKey (e : Entry) : String := e.Host ++ ":" ++ e.Tenant

/-- The bytes of an entry's composite key.  Go compares strings bytewise,
so sorting and hashing both work on these bytes. -/
def keyBytes (e : Entry) : List Nat := stringBytes (tunnelKey e)

/-- `hashPort` from `ports.go`:
`uint16(portRangeMin + int(h.Sum32()) % portRange)`.
`int` is 64-bit, so `int(h.Sum32())` is the nonnegative value of the hash;
the final `uint16` conversion is the `% 2^16`. -/
def hashPort (host tenant : String) : Nat :=
  (portRangeMin + fnv32a (stringBytes (host ++ ":" ++ tenant)) % portRange) % 65536

/-- Bytewise lexicographic `<` on byte lists — Go's `<` on strings,
used by the `sort.Slice` comparator in `AssignPorts`. -/
def bytesLt : List Nat → List Nat → Bool
  | [], [] => false
  | [], _ :: _ => true
  | _ :: _, [] => false
  | a :: as, b :: bs => if a < b then true else if b < a then false else bytesLt as bs

/-- Bytewise lexicographic `≤` on byte lists. -/
def bytesLe : List Nat → List Nat → Bool
  | [], _ => true
  | _ :: _, [] => false
  | a :: as, b :: bs => if a < b then true else if b < a then false else bytesLe as bs

/-- The (non-strict) sort order on entries used to model
`sort.Slice(entries, ki < kj)`.  Go's `sort.Slice` is an unstable sort by a
strict comparator; any comparison sort with the matching total preorder
produces the same list when the keys are distinct, which is the only case
the spec's determinism claims are about. -/
def entryLe (a b : Entry) : Prop := bytesLe (keyBytes a) (keyBytes b) = true

instance : DecidableRel entryLe := fun a b =>
  inferInstanceAs (Decidable (bytesLe (keyBytes a) (keyBytes b) = true))

/-- The strict order corresponding to `entryLe`: the `sort.Slice`
comparator `ki < kj` itself. -/
def entryLt (a b : Entry) : Prop := bytesLt (keyBytes a) (keyBytes b) = true

/-- The sorting pass of `AssignPorts`. -/
def sortEntries (l : List Entry) : List Entry := List.insertionSort entryLe l

/-- One collision-probe step of `AssignPorts`:
`port++` on a `uint16` (hence `% 2^16`), then
`if port > portRangeMax { port = portRangeMin }`.
The Go code intends to wrap back to `portRangeMin`, but since `port` is a
`uint16` the guard `port > 65535` can never hold — incrementing 65535
wraps to 0 instead.  The model reproduces that behaviour exactly. -/
def bump (port : Nat) : Nat :=
  let p := (port + 1) % 65536
  if portRangeMax < p then portRangeMin else p

/-- The probe loop `for used[port] { port++; ... }` of `AssignPorts`,
with explicit fuel.  Fuel `2^16` is enough to visit every `uint16` value
once, so whenever fewer than `2^16` ports are used the result is exactly
what the Go loop computes. -/
def probeFrom : Nat → List Nat → Nat → Nat
  | 0, _, port => port
  | fuel + 1, used, port =>
    if port ∈ used then probeFrom fuel used (bump port) else port

/-- The assignment loop of `AssignPorts` over the (already sorted) entries,
carrying the set of used ports. -/
def assignLoop : List Nat → List Entry → List Entry
  | _, [] => []
  | used, e :: rest =>
    let p := probeFrom 65536 used (hashPort e.Host e.Tenant)
    { e with LocalPort := p } :: assignLoop (p :: used) rest

/-- `AssignPorts` from `ports.go`: sort by composite key, then assign each
entry the first unused port probing from its hash.  The Go function mutates
the slice in place (reordering it and setting `LocalPort`); the model
returns the resulting list. -/
def AssignPorts (entries : List Entry) : List Entry :=
  assignLoop [] (sortEntries entries)

/-! ## SSH connection pool (`sshPool` in `tunnel.go`) -/

/-- `pooledConn`: a shared SSH client with a reference count and a liveness
flag.  `client` is an opaque handle identity (the model never inspects it);
`refs` is a Go `int`; `dead` models whether the `dead` channel has been
closed (the liveness signal has fired). -/
structure PooledConn where
  client : Nat
  refs : Int
  dead : Bool
deriving DecidableEq, Repr

/-- `sshPool` state: the `conns` map as an association list, plus the set of
client handles on which `Close()` has been called (so that claims about
connections being closed or still open are statable). -/
structure SSHPool where
  conns : List (String × PooledConn)
  closed : List Nat
deriving DecidableEq, Repr

/-- Go map assignment `m[k] = v`: replace any entry with that key. -/
def setConn (conns : List (String × PooledConn)) (host : String) (pc : PooledConn) :
    List (String × PooledConn) :=
  (host, pc) :: conns.filter (fun kv => !(kv.1 == host))

/-- Go map `delete(m, k)`. -/
def delConn (conns : List (String × PooledConn)) (host : String) :
    List (String × PooledConn) :=
  conns.filter (fun kv => !(kv.1 == host))

/-- The second half of `sshPool.Acquire`, entered after `dialSSH` (the lock
was dropped for the dial; `dialResult` is the dial's outcome).  Re-checks
the map under the lock: a racing goroutine may have published a connection
meanwhile — if a live one is there, its refcount is bumped, our fresh client
is closed and theirs returned; a dead one is replaced; otherwise ours is
inserted with refcount 1. -/
def acquireDialed (p : SSHPool) (host : String) (dialResult : Option Nat) :
    SSHPool × Option Nat :=
  match dialResult with
  | none => (p, none)
  | some c =>
    match List.lookup host p.conns with
    | some pc =>
      if pc.dead then
        ({ p with conns := setConn p.conns host ⟨c, 1, false⟩ }, some c)
      else
        ({ conns := setConn p.conns host { pc with refs := pc.refs + 1 },
           closed := c :: p.closed }, some pc.client)
    | none => ({ p with conns := setConn p.conns host ⟨c, 1, false⟩ }, some c)

/-- `sshPool.Acquire`: return the live pooled connection for `host`
(incrementing its refcount), or dial a new one.  `dialResult` is the
outcome of `dialSSH` in case a dial is needed (`none` = dial failed).
The model runs the two locked critical sections back to back, i.e. the
executions with no interleaved pool operation. -/
def Acquire (p : SSHPool) (host : String) (dialResult : Option Nat) :
    SSHPool × Option Nat :=
  match List.lookup host p.conns with
  | some pc =>
    if pc.dead then
      acquireDialed { p with conns := delConn p.conns host } host dialResult
    else
      ({ p with conns := setConn p.conns host { pc with refs := pc.refs + 1 } },
       some pc.client)
  | none => acquireDialed p host dialResult

/-- `sshPool.Release`: decrement the host's refcount; at `<= 0` close the
client and delete the entry.  Missing key: return unchanged. -/
def Release (p : SSHPool) (host : String) : SSHPool :=
  match List.lookup host p.conns with
  | none => p
  | some pc =>
    let r := pc.refs - 1
    if r ≤ 0 then
      { conns := delConn p.conns host, closed := pc.client :: p.closed }
    else
      { p with conns := setConn p.conns host { pc with refs := r } }

/-- `sshPool.Dead`: the host's liveness signal, as "has it already fired?".
A pooled entry yields its own `dead` flag; a missing entry yields an
already-closed channel, i.e. `true`. -/
def Dead (p : SSHPool) (host : String) : Bool :=
  match List.lookup host p.conns with
  | some pc => pc.dead
  | none => true

/-! ## Tunnel manager (`TunnelManager` in `tunnel.go`) -/

/-- The bubbletea messages returned by the tunnel operations. -/
inductive TeaMsg where
  | tunnelConnected (key : String)
  | tunnelError (key : String) (err : String)
  | tunnelDisconnected (key : String)
deriving DecidableEq, Repr

/-- Is a message a `tunnelErrorMsg`? -/
def TeaMsg.isError : TeaMsg → Bool
  | .tunnelError _ _ => true
  | _ => false

/-- A `Tunnel` (`tunnel.go`): its SSH client handle plus the observable
state of its resources — whether `listener.Close()` has been called, whether
`client.Close()` has been called, and whether the accept loop has exited
(`close(done)` has run, i.e. the `done` channel has fired). -/
structure Tunnel where
  client : Nat
  listenerClosed : Bool := false
  clientClosed : Bool := false
  doneFired : Bool := false
deriving DecidableEq, Repr

/-- Go map assignment `tm.tunnels[key] = tun`. -/
def setTun (tunnels : List (String × Tunnel)) (key : String) (tun : Tunnel) :
    List (String × Tunnel) :=
  (key, tun) :: tunnels.filter (fun kv => !(kv.1 == key))

/-- Go map `delete(tm.tunnels, key)`. -/
def delTun (tunnels : List (String × Tunnel)) (key : String) :
    List (String × Tunnel) :=
  tunnels.filter (fun kv => !(kv.1 == key))

/-- `closeTunnel` (`tunnel.go`): `listener.Close()`, `client.Close()`, then
`<-tun.done`.  Closing the listener makes the accept loop's pending
`Accept` return an error, the loop returns, and its deferred `close(done)`
fires — so when `<-tun.done` unblocks, `doneFired` holds.  The model
performs those three steps at once. -/
def closeTunnel (tun : Tunnel) : Tunnel :=
  { tun with listenerClosed := true, clientClosed := true, doneFired := true }

/-- `TunnelManager.Connect` for a given key: the sequence of external
effects is `dialSSH` (`dialResult`: `some client` or failure), then
`resolveContainerIP` over that client (`resolveResult`), then binding the
local listener (`listenOK`).  On any failure the already-dialed client is
closed and an error message returned without touching the registry; on
success the tunnel is registered and a connected message returned.
Returns (registry, clients closed during the call, message). -/
def Connect (tunnels : List (String × Tunnel)) (key : String)
    (dialResult : Option Nat) (resolveResult : Option String) (listenOK : Bool) :
    List (String × Tunnel) × List Nat × TeaMsg :=
  match dialResult with
  | none => (tunnels, [], .tunnelError key "ssh")
  | some client =>
    match resolveResult with
    | none => (tunnels, [client], .tunnelError key "resolve IP")
    | some _ip =>
      if listenOK then
        (setTun tunnels key { client := client }, [], .tunnelConnected key)
      else
        (tunnels, [client], .tunnelError key "listen")

/-- `TunnelManager.Disconnect` for a given key: under the lock, look the
key up and delete it; outside the lock, `closeTunnel` it if it was present.
Returns (registry, the closed tunnel if any, message). -/
def Disconnect (tunnels : List (String × Tunnel)) (key : String) :
    List (String × Tunnel) × Option Tunnel × TeaMsg :=
  match List.lookup key tunnels with
  | some tun => (delTun tunnels key, some (closeTunnel tun), .tunnelDisconnected key)
  | none => (tunnels, none, .tunnelDisconnected key)

/-- The tail of `TunnelManager.MonitorTunnel`, entered when
`tun.client.Wait()` returns (the SSH connection died): under the lock,
re-check whether the key is still tracked and delete it; if a concurrent
`Disconnect` already removed it, report nothing; otherwise close the
listener, wait for the accept loop, and report the lost connection.
`tun` is the tunnel the monitor captured when it started.
Returns (registry, the tunnel after cleanup, report). -/
def MonitorWake (tunnels : List (String × Tunnel)) (key : String) (tun : Tunnel) :
    List (String × Tunnel) × Tunnel × Option TeaMsg :=
  let stillTracked := (List.lookup key tunnels).isSome
  let t1 := delTun tunnels key
  if stillTracked then
    (t1, { tun with listenerClosed := true, doneFired := true },
     some (.tunnelError key "SSH connection lost"))
  else
    (t1, tun, none)

/-- `TunnelManager.IsAlive`: registry membership only. -/
def IsAlive (tunnels : List (String × Tunnel)) (key : String) : Bool :=
  (List.lookup key tunnels).isSome

/-- `TunnelManager.DisconnectAll`: under the lock, snapshot the registry
and replace it with an empty map; then `closeTunnel` every snapshotted
tunnel and wait (via the `WaitGroup`) for all of them.  Returns the new
(empty) registry and the snapshot after closing — the function returns
only once every `closeTunnel` has completed, i.e. every listener and
client is closed and every accept loop's `done` has fired. -/
def DisconnectAll (tunnels : List (String × Tunnel)) :
    List (String × Tunnel) × List (String × Tunnel) :=
  ([], tunnels.map (fun kv => (kv.1, closeTunnel kv.2)))

/-! ## The bidirectional relay (`forward` in `tunnel.go`)

`forward(local, remote)` starts two copy goroutines — `io.Copy(local,
remote)` and `io.Copy(remote, local)` — each sending its result on the
2-buffered channel `errc`, receives one value from `errc`, and returns,
at which point its deferred `local.Close()` and `remote.Close()` run
back to back.

The model is a labelled transition system.  A copy goroutine may finish at
any moment while it is running (its peer may EOF, or a close may force an
error); finishing deposits a value in `errc`.  The main goroutine's
receive-and-close step is enabled once `errc` is nonempty, and the two
deferred closes execute together as one step. -/

/-- State of one `forward` invocation: whether each copy goroutine is still
running, how many results sit in `errc`, and whether the deferred closes
have run. -/
structure FwdState where
  copyLRRunning : Bool
  copyRLRunning : Bool
  errc : Nat
  connsClosed : Bool
deriving DecidableEq, Repr

/-- Events of one `forward` invocation: the local→remote copy finishing,
the remote→local copy finishing, and the main goroutine receiving one
value from `errc` and running both deferred closes. -/
inductive FwdLabel where
  | doneLR
  | doneRL
  | closeBoth
deriving DecidableEq, Repr

/-- Initial state: both copies running, `errc` empty, connections open. -/
def fwdInit : FwdState :=
  { copyLRRunning := true, copyRLRunning := true, errc := 0, connsClosed := false }

/-- One transition of the `forward` system; `none` when the event is not
enabled in the given state. -/
def fwdStep (s : FwdState) : FwdLabel → Option FwdState
  | .doneLR =>
    if s.copyLRRunning then
      some { s with copyLRRunning := false, errc := s.errc + 1 }
    else none
  | .doneRL =>
    if s.copyRLRunning then
      some { s with copyRLRunning := false, errc := s.errc + 1 }
    else none
  | .closeBoth =>
    if !s.connsClosed && decide (1 ≤ s.errc) then
      some { s with errc := s.errc - 1, connsClosed := true }
    else none

/-- Run a sequence of events from a state. -/
def fwdRun (s : FwdState) : List FwdLabel → Option FwdState
  | [] => some s
  | l :: ls =>
    match fwdStep s l with
    | some s1 => fwdRun s1 ls
    | none => none

/-- A complete execution of `forward`: every event was enabled when it
occurred, both copy goroutines have terminated, and `forward` has returned
(its deferred closes have run). -/
def fwdTraceOK (t : List FwdLabel) : Bool :=
  match fwdRun fwdInit t with
  | some s => !s.copyLRRunning && !s.copyRLRunning && s.connsClosed
  | none => false

/-! ## Helper lemmas -/

/-- Looking a key up after filtering that key out finds nothing
(`delete` on the association-list model of a Go map). -/
theorem lookup_filter_self {β : Type} (key : String) (l : List (String × β)) :
    List.lookup key (l.filter (fun kv => !(kv.1 == key))) = none := by
  induction l with
  | nil => rfl
  | cons kv tl ih =>
    by_cases hk : kv.1 = key
    · simp [List.filter, hk, ih]
    · have h1 : (kv.1 == key) = false := beq_eq_false_iff_ne.mpr hk
      have h2 : (key == kv.1) = false := beq_eq_false_iff_ne.mpr (Ne.symm hk)
      simp [List.filter, h1, List.lookup, h2, ih]

/-- After filtering a key out, no element with that key remains. -/
theorem countP_filter_self {β : Type} (key : String) (l : List (String × β)) :
    (l.filter (fun kv => !(kv.1 == key))).countP (fun kv => kv.1 == key) = 0 := by
  rw [List.countP_eq_zero]
  intro a ha
  have := List.of_mem_filter ha
  simpa using this

/-! ## Claim theorems -/

/-- **C10.** `sshPool.Release` on a host key with no pool entry is a no-op:
the pool state (connection map and set of closed clients) is returned
unchanged, so nothing is closed and no reference count is touched. -/
theorem release_missing_key_noop (p : SSHPool) (host : String)
    (h : List.lookup host p.conns = none) : Release p host = p := by
  simp [Release, h]

/-- Witness for C10: releasing an absent host on the empty pool. -/
theorem release_missing_key_noop_witness :
    Release ⟨[], []⟩ "db1" = (⟨[], []⟩ : SSHPool) :=
  release_missing_key_noop ⟨[], []⟩ "db1" rfl

/-- **C8.** `sshPool.Dead` on a host with no pool entry returns an
already-fired liveness signal (so a waiter never blocks); on a host with a
pooled entry it returns that entry's own signal. -/
theorem dead_missing_key_fired (p : SSHPool) (host : String) :
    (List.lookup host p.conns = none → Dead p host = true) ∧
    ∀ pc, List.lookup host p.conns = some pc → Dead p host = pc.dead := by
  constructor
  · intro h; simp [Dead, h]
  · intro pc h; simp [Dead, h]

/-- Witness for C8: the empty pool (no entry) and a pool with a live and a
dead entry. -/
theorem dead_missing_key_fired_witness :
    Dead ⟨[], []⟩ "db1" = true ∧
    Dead ⟨[("db1", ⟨3, 1, false⟩)], []⟩ "db1" = false :=
  ⟨(dead_missing_key_fired ⟨[], []⟩ "db1").1 rfl,
   (dead_missing_key_fired ⟨[("db1", ⟨3, 1, false⟩)], []⟩ "db1").2 ⟨3, 1, false⟩ rfl⟩

/-- **C2.** If a `Disconnect` removes a key from the registry before the
monitor for that key wakes from `client.Wait()`, the monitor reports
nothing; in general the monitor emits its "SSH connection lost" report
exactly when the key was still registered at the moment it re-checks
membership under the lock. -/
theorem monitor_disconnect_race (tunnels : List (String × Tunnel))
    (key : String) (tun : Tunnel) :
    (MonitorWake (Disconnect tunnels key).1 key tun).2.2 = none ∧
    ∀ ts : List (String × Tunnel),
      ((MonitorWake ts key tun).2.2).isSome = (List.lookup key ts).isSome := by
  constructor
  · cases h : List.lookup key tunnels with
    | none => simp [Disconnect, h, MonitorWake]
    | some t => simp [Disconnect, h, MonitorWake, delTun, lookup_filter_self]
  · intro ts
    cases h : List.lookup key ts with
    | none => simp [MonitorWake, h]
    | some t => simp [MonitorWake, h]

/-- **C5.** If any stage of `Connect` fails — SSH dial, container-IP
resolution, or the local listener bind — then `Connect` returns an error
message, the registry is unchanged (no tunnel entry added), and any client
dialed during the attempt has been closed. -/
theorem connect_failure_no_leak (tunnels : List (String × Tunnel)) (key : String)
    (dialResult : Option Nat) (resolveResult : Option String) (listenOK : Bool)
    (h : dialResult = none ∨ resolveResult = none ∨ listenOK = false) :
    ((Connect tunnels key dialResult resolveResult listenOK).2.2).isError = true ∧
    (Connect tunnels key dialResult resolveResult listenOK).1 = tunnels ∧
    ∀ c, dialResult = some c →
      c ∈ (Connect tunnels key dialResult resolveResult listenOK).2.1 := by
  rcases h with h | h | h
  · subst h; simp [Connect, TeaMsg.isError]
  · subst h
    cases dialResult with
    | none => simp [Connect, TeaMsg.isError]
    | some client =>
      refine ⟨rfl, rfl, ?_⟩
      intro c hc
      simp only [Option.some.injEq] at hc
      subst hc
      simp [Connect]
  · subst h
    cases dialResult with
    | none => simp [Connect, TeaMsg.isError]
    | some client =>
      cases resolveResult with
      | none =>
        refine ⟨rfl, rfl, ?_⟩
        intro c hc
        simp only [Option.some.injEq] at hc
        subst hc
        simp [Connect]
      | some ip =>
        refine ⟨rfl, rfl, ?_⟩
        intro c hc
        simp only [Option.some.injEq] at hc
        subst hc
        simp [Connect]

/-- Witness for C5: a `Connect` whose IP resolution fails after a
successful dial, on an empty registry. -/
theorem connect_failure_no_leak_witness :
    ((Connect [] "db1:a" (some 5) none true).2.2).isError = true ∧
    (Connect [] "db1:a" (some 5) none true).1 = [] ∧
    ∀ c, (some 5 : Option Nat) = some c →
      c ∈ (Connect [] "db1:a" (some 5) none true).2.1 :=
  connect_failure_no_leak [] "db1:a" (some 5) none true (Or.inr (Or.inl rfl))

/-- **C6.** `DisconnectAll` over the registry returns only after: the
registry is empty, and every snapshotted tunnel has had its listener
closed, its client closed, and its accept loop's completion signal fired —
the returned snapshot is exactly the old registry's tunnels, closed. -/
theorem disconnectAll_closes_everything (tunnels : List (String × Tunnel)) :
    (DisconnectAll tunnels).1 = [] ∧
    ((DisconnectAll tunnels).2.all fun kv =>
      kv.2.listenerClosed && kv.2.clientClosed && kv.2.doneFired) = true ∧
    (DisconnectAll tunnels).2.map (fun kv => (kv.1, kv.2.client)) =
      tunnels.map (fun kv => (kv.1, kv.2.client)) := by
  refine ⟨rfl, ?_, ?_⟩
  · simp [DisconnectAll, List.all_eq_true, closeTunnel]
  · simp [DisconnectAll, closeTunnel]

/-- **C1.** Starting from a pool with no entry for `host`: two successive
`Acquire` calls return the same client handle and leave a single pool entry
with reference count 2 (and nothing closed); one `Release` leaves the entry
present with reference count 1 and the client still open; a second
`Release` removes the entry and closes the client. -/
theorem pool_refcount_scenario (p : SSHPool) (host : String) (c : Nat) (d2 : Option Nat)
    (h : List.lookup host p.conns = none) :
    (Acquire p host (some c)).2 = some c ∧
    (Acquire (Acquire p host (some c)).1 host d2).2 = some c ∧
    List.lookup host (Acquire (Acquire p host (some c)).1 host d2).1.conns
      = some ⟨c, 2, false⟩ ∧
    ((Acquire (Acquire p host (some c)).1 host d2).1.conns.countP
      (fun kv => kv.1 == host)) = 1 ∧
    (Acquire (Acquire p host (some c)).1 host d2).1.closed = p.closed ∧
    List.lookup host
      (Release (Acquire (Acquire p host (some c)).1 host d2).1 host).conns
      = some ⟨c, 1, false⟩ ∧
    (Release (Acquire (Acquire p host (some c)).1 host d2).1 host).closed
      = p.closed ∧
    List.lookup host
      (Release (Release (Acquire (Acquire p host (some c)).1 host d2).1 host) host).conns
      = none ∧
    (Release (Release (Acquire (Acquire p host (some c)).1 host d2).1 host) host).closed
      = c :: p.closed := by
  have e1 : Acquire p host (some c)
      = ({ p with conns := setConn p.conns host ⟨c, 1, false⟩ }, some c) := by
    simp [Acquire, h, acquireDialed]
  have l1 : List.lookup host (setConn p.conns host ⟨c, 1, false⟩)
      = some ⟨c, 1, false⟩ := by
    simp [setConn, List.lookup]
  have e2 : Acquire ({ p with conns := setConn p.conns host ⟨c, 1, false⟩ }) host d2
      = ({ p with conns := setConn (setConn p.conns host ⟨c, 1, false⟩) host ⟨c, 2, false⟩ },
         some c) := by
    simp [Acquire, l1]
  have l2 : List.lookup host (setConn (setConn p.conns host ⟨c, 1, false⟩) host ⟨c, 2, false⟩)
      = some ⟨c, 2, false⟩ := by
    simp [setConn, List.lookup]
  have e3 : Release ({ p with
        conns := setConn (setConn p.conns host ⟨c, 1, false⟩) host ⟨c, 2, false⟩ }) host
      = { p with
          conns := setConn (setConn (setConn p.conns host ⟨c, 1, false⟩) host ⟨c, 2, false⟩) host ⟨c, 1, false⟩ } := by
    simp [Release, l2, setConn]
  have l3 : List.lookup host
      (setConn (setConn (setConn p.conns host ⟨c, 1, false⟩) host ⟨c, 2, false⟩) host ⟨c, 1, false⟩)
      = some ⟨c, 1, false⟩ := by
    simp [setConn, List.lookup]
  have e4 : Release ({ p with
        conns := setConn (setConn (setConn p.conns host ⟨c, 1, false⟩) host ⟨c, 2, false⟩) host ⟨c, 1, false⟩ }) host
      = { conns := delConn (setConn (setConn (setConn p.conns host ⟨c, 1, false⟩) host ⟨c, 2, false⟩) host ⟨c, 1, false⟩) host,
          closed := c :: p.closed } := by
    simp [Release, l3]
  rw [e1]
  rw [e2]
  refine ⟨rfl, rfl, l2, ?_, rfl, ?_, ?_, ?_, ?_⟩
  · simp [setConn, List.countP_cons, countP_filter_self]
  · rw [e3]; exact l3
  · rw [e3]
  · rw [e3, e4]; simp [delConn, lookup_filter_self]
  · rw [e3, e4]

/-- Witness for C1: the scenario run on the empty pool with host `"db1"`
and client handle 7. -/
theorem pool_refcount_scenario_witness :
    (Acquire ⟨[], []⟩ "db1" (some 7)).2 = some 7 ∧
    (Acquire (Acquire ⟨[], []⟩ "db1" (some 7)).1 "db1" none).2 = some 7 ∧
    List.lookup "db1" (Acquire (Acquire ⟨[], []⟩ "db1" (some 7)).1 "db1" none).1.conns
      = some ⟨7, 2, false⟩ ∧
    ((Acquire (Acquire ⟨[], []⟩ "db1" (some 7)).1 "db1" none).1.conns.countP
      (fun kv => kv.1 == "db1")) = 1 ∧
    (Acquire (Acquire ⟨[], []⟩ "db1" (some 7)).1 "db1" none).1.closed = [] ∧
    List.lookup "db1"
      (Release (Acquire (Acquire ⟨[], []⟩ "db1" (some 7)).1 "db1" none).1 "db1").conns
      = some ⟨7, 1, false⟩ ∧
    (Release (Acquire (Acquire ⟨[], []⟩ "db1" (some 7)).1 "db1" none).1 "db1").closed
      = [] ∧
    List.lookup "db1"
      (Release (Release (Acquire (Acquire ⟨[], []⟩ "db1" (some 7)).1 "db1" none).1 "db1")
        "db1").conns = none ∧
    (Release (Release (Acquire (Acquire ⟨[], []⟩ "db1" (some 7)).1 "db1" none).1 "db1")
        "db1").closed = [7] :=
  pool_refcount_scenario ⟨[], []⟩ "db1" 7 none rfl

/-! ### Order lemmas for the bytewise string comparison -/

theorem bytesLe_total (a : List Nat) : ∀ b, bytesLe a b = true ∨ bytesLe b a = true := by
  induction a with
  | nil => intro b; left; cases b <;> rfl
  | cons x xs ih =>
    intro b
    cases b with
    | nil => right; rfl
    | cons y ys =>
      rcases Nat.lt_trichotomy x y with h | h | h
      · left; simp [bytesLe, h]
      · subst h
        rcases ih ys with h2 | h2
        · left; simp [bytesLe, Nat.lt_irrefl, h2]
        · right; simp [bytesLe, Nat.lt_irrefl, h2]
      · right; simp [bytesLe, h]

theorem bytesLe_trans (a : List Nat) : ∀ b c, bytesLe a b = true → bytesLe b c = true →
    bytesLe a c = true := by
  induction a with
  | nil => intro b c _ _; cases c <;> rfl
  | cons x xs ih =>
    intro b c h1 h2
    cases b with
    | nil => simp [bytesLe] at h1
    | cons y ys =>
      cases c with
      | nil => simp [bytesLe] at h2
      | cons z zs =>
        by_cases hxy : x < y
        · by_cases hyz : y < z
          · simp [bytesLe, Nat.lt_trans hxy hyz]
          · by_cases hzy : z < y
            · simp [bytesLe, hyz, hzy] at h2
            · have hyzeq : y = z := by omega
              subst hyzeq
              simp [bytesLe, hxy]
        · by_cases hyx : y < x
          · simp [bytesLe, hxy, hyx] at h1
          · have hxyeq : x = y := by omega
            subst hxyeq
            simp only [bytesLe, Nat.lt_irrefl, if_false] at h1
            by_cases hxz : x < z
            · simp [bytesLe, hxz]
            · by_cases hzx : z < x
              · simp [bytesLe, Nat.lt_irrefl, hzx] at h2
                omega
              · have hxzeq : x = z := by omega
                subst hxzeq
                simp only [bytesLe, Nat.lt_irrefl, if_false] at h2 ⊢
                exact ih ys zs h1 h2

theorem bytesLe_antisymm_eq (a : List Nat) : ∀ b, bytesLe a b = true → bytesLe b a = true →
    a = b := by
  induction a with
  | nil => intro b _ h2; cases b with
    | nil => rfl
    | cons y ys => simp [bytesLe] at h2
  | cons x xs ih =>
    intro b h1 h2
    cases b with
    | nil => simp [bytesLe] at h1
    | cons y ys =>
      by_cases hxy : x < y
      · simp [bytesLe, hxy, (show ¬ y < x by omega)] at h2
      · by_cases hyx : y < x
        · simp [bytesLe, hxy, hyx] at h1
        · have hxyeq : x = y := by omega
          subst hxyeq
          simp only [bytesLe, Nat.lt_irrefl, if_false] at h1 h2
          rw [ih ys h1 h2]

theorem bytesLt_asymm (a : List Nat) : ∀ b, bytesLt a b = true → bytesLt b a = true →
    False := by
  induction a with
  | nil => intro b h1 h2; cases b with
    | nil => simp [bytesLt] at h1
    | cons y ys => simp [bytesLt] at h2
  | cons x xs ih =>
    intro b h1 h2
    cases b with
    | nil => simp [bytesLt] at h1
    | cons y ys =>
      by_cases hxy : x < y
      · simp [bytesLt, hxy, (show ¬ y < x by omega)] at h2
      · by_cases hyx : y < x
        · simp [bytesLt, hxy, hyx] at h1
        · have hxyeq : x = y := by omega
          subst hxyeq
          simp only [bytesLt, Nat.lt_irrefl, if_false] at h1 h2
          exact ih ys h1 h2

theorem bytesLt_of_le_of_ne (a : List Nat) : ∀ b, bytesLe a b = true → a ≠ b →
    bytesLt a b = true := by
  induction a with
  | nil => intro b _ hne; cases b with
    | nil => exact absurd rfl hne
    | cons y ys => rfl
  | cons x xs ih =>
    intro b h1 hne
    cases b with
    | nil => simp [bytesLe] at h1
    | cons y ys =>
      by_cases hxy : x < y
      · simp [bytesLt, hxy]
      · by_cases hyx : y < x
        · simp [bytesLe, hxy, hyx] at h1
        · have hxyeq : x = y := by omega
          subst hxyeq
          simp only [bytesLe, Nat.lt_irrefl, if_false] at h1
          have hne' : xs ≠ ys := by
            intro h; exact hne (by rw [h])
          simp only [bytesLt, Nat.lt_irrefl, if_false]
          exact ih ys h1 hne'

theorem bytesLe_of_bytesLt (a : List Nat) : ∀ b, bytesLt a b = true → bytesLe a b = true := by
  induction a with
  | nil => intro b _; cases b <;> rfl
  | cons x xs ih =>
    intro b h1
    cases b with
    | nil => simp [bytesLt] at h1
    | cons y ys =>
      by_cases hxy : x < y
      · simp [bytesLe, hxy]
      · by_cases hyx : y < x
        · simp [bytesLt, hxy, hyx] at h1
        · have hxyeq : x = y := by omega
          subst hxyeq
          simp only [bytesLt, Nat.lt_irrefl, if_false] at h1
          simp only [bytesLe, Nat.lt_irrefl, if_false]
          exact ih ys h1

/-! ### Probe loop lemmas -/

theorem probeFrom_not_mem (fuel : Nat) (used : List Nat) (port : Nat) (h : port ∉ used) :
    probeFrom (fuel + 1) used port = port := by
  simp [probeFrom, h]

theorem probeFrom_mem (fuel : Nat) (used : List Nat) (port : Nat) (h : port ∈ used) :
    probeFrom (fuel + 1) used port = probeFrom fuel used (bump port) := by
  simp [probeFrom, h]

/-! ### Port allocator claims -/

/-- **C3** (failing input for the range/wrap bug).  The composite keys
`db1:t121119` and `db1:t131594` both hash to port 65535.  `AssignPorts`
gives the first (in sorted key order) port 65535; probing for the second,
`port++` on the `uint16` wraps 65535 to 0 and the intended wrap-around
check `port > portRangeMax` can never fire, so the second entry receives
local port 0 — outside [10000, 65535], not the claimed wrap to 10000. -/
theorem assignPorts_uint16_wrap_bug :
    (AssignPorts [⟨"db1", "t121119", 0⟩, ⟨"db1", "t131594", 0⟩]).map Entry.LocalPort
      = [65535, 0] := by decide

/-- **C9** (counterexample).  Two distinct composite keys that hash to the
same port bucket 65535 (and no other entries) do *not* receive consecutive
ports: the earlier key gets 65535 and the later key gets 0, and 0 is not
the successor of 65535. -/
theorem assign_collision_top_counterexample :
    hashPort "db1" "t193640" = 65535 ∧ hashPort "db1" "t357277" = 65535 ∧
    (AssignPorts [⟨"db1", "t193640", 0⟩, ⟨"db1", "t357277", 0⟩]).map Entry.LocalPort
      = [65535, 0] ∧ (0 : Nat) ≠ 65535 + 1 := by decide

/-- **C9** (amended).  For two entries with distinct composite keys that
hash to the same port bucket `p` with `p` *below the top of the range*,
`AssignPorts` on exactly those two entries gives the earlier key (in sorted
composite-key order) the hash port `p` and the later key the next port
`p + 1` — two distinct, consecutive ports. -/
theorem assign_two_colliding_consecutive (e1 e2 : Entry) (p : Nat)
    (hlt : bytesLt (keyBytes e1) (keyBytes e2) = true)
    (h1 : hashPort e1.Host e1.Tenant = p)
    (h2 : hashPort e2.Host e2.Tenant = p)
    (hp : p < portRangeMax) :
    AssignPorts [e1, e2] = [{ e1 with LocalPort := p }, { e2 with LocalPort := p + 1 }] := by
  have hp' : p < 65535 := by simpa [portRangeMax] using hp
  have hle : entryLe e1 e2 := bytesLe_of_bytesLt _ _ hlt
  have hsort : sortEntries [e1, e2] = [e1, e2] := by
    simp only [sortEntries, List.insertionSort, List.orderedInsert]
    rw [if_pos hle]
  have h65536 : (65536 : Nat) = 65535 + 1 := by norm_num
  have h65535 : (65535 : Nat) = 65534 + 1 := by norm_num
  have s1 : probeFrom 65536 [] p = p := by
    rw [h65536]; exact probeFrom_not_mem _ _ _ (by simp)
  have hbump : bump p = p + 1 := by
    have hm : (p + 1) % 65536 = p + 1 := Nat.mod_eq_of_lt (by omega)
    simp only [bump, hm, portRangeMax]
    rw [if_neg (by omega)]
  have s2 : probeFrom 65536 [p] p = p + 1 := by
    rw [h65536, probeFrom_mem _ _ _ (by simp), hbump, h65535]
    exact probeFrom_not_mem _ _ _ (by simp)
  simp only [AssignPorts, hsort, assignLoop, h1, h2, s1, s2]

/-- Witness for the amended C9: `db1:t1526` and `db1:t169` both hash to
port 13874; they receive 13874 and 13875. -/
theorem assign_two_colliding_consecutive_witness :
    AssignPorts [⟨"db1", "t1526", 0⟩, ⟨"db1", "t169", 0⟩]
      = [⟨"db1", "t1526", 13874⟩, ⟨"db1", "t169", 13875⟩] :=
  assign_two_colliding_consecutive ⟨"db1", "t1526", 0⟩ ⟨"db1", "t169", 0⟩ 13874
    (by decide) (by decide) (by decide) (by decide)

/-- **C4.** `AssignPorts` is deterministic in the entry set: on two
arrangements of the same entries (with pairwise distinct composite keys) it
produces the *same* output list — in particular each composite key receives
the identical port both times — because the entries are first sorted by
composite key and the hash and probe depend only on the entry identities. -/
theorem assignPorts_deterministic (l l' : List Entry) (hperm : l.Perm l')
    (hnd : (l.map keyBytes).Nodup) : AssignPorts l = AssignPorts l' := by
  haveI : IsTotal Entry entryLe := ⟨fun a b => bytesLe_total _ _⟩
  haveI : IsTrans Entry entryLe := ⟨fun a b c => bytesLe_trans _ _ _⟩
  haveI : IsAntisymm Entry entryLt := ⟨fun a b hab hba => (bytesLt_asymm _ _ hab hba).elim⟩
  have perm1 : (sortEntries l).Perm l := List.perm_insertionSort entryLe l
  have perm2 : (sortEntries l').Perm l' := List.perm_insertionSort entryLe l'
  have sorted1 : List.Sorted entryLe (sortEntries l) := List.sorted_insertionSort entryLe l
  have sorted2 : List.Sorted entryLe (sortEntries l') := List.sorted_insertionSort entryLe l'
  have hnd' : (l'.map keyBytes).Nodup := ((hperm.map keyBytes).nodup_iff).mp hnd
  have hnd1 : ((sortEntries l).map keyBytes).Nodup := ((perm1.map keyBytes).nodup_iff).mpr hnd
  have hnd2 : ((sortEntries l').map keyBytes).Nodup :=
    ((perm2.map keyBytes).nodup_iff).mpr hnd'
  have str : ∀ m : List Entry, List.Sorted entryLe m → (m.map keyBytes).Nodup →
      List.Sorted entryLt m := by
    intro m hs hn
    have hpw : m.Pairwise (fun a b => keyBytes a ≠ keyBytes b) := List.pairwise_map.mp hn
    exact (hs.and hpw).imp (fun hab => bytesLt_of_le_of_ne _ _ hab.1 hab.2)
  have heq : sortEntries l = sortEntries l' :=
    List.eq_of_perm_of_sorted (perm1.trans (hperm.trans perm2.symm))
      (str _ sorted1 hnd1) (str _ sorted2 hnd2)
  simp only [AssignPorts, heq]

/-- Witness for C4: two entries with distinct keys, in both orders. -/
theorem assignPorts_deterministic_witness :
    AssignPorts [⟨"db1", "a", 0⟩, ⟨"db2", "b", 0⟩]
      = AssignPorts [⟨"db2", "b", 0⟩, ⟨"db1", "a", 0⟩] :=
  assignPorts_deterministic _ _ (List.Perm.swap _ _ _) (by decide)

/-! ### `forward` trace lemmas -/

theorem fwdRun_append (t1 : List FwdLabel) : ∀ (s : FwdState) (t2 : List FwdLabel),
    fwdRun s (t1 ++ t2) = (fwdRun s t1).bind (fun s1 => fwdRun s1 t2) := by
  induction t1 with
  | nil => intro s t2; simp [fwdRun]
  | cons l ls ih =>
    intro s t2
    simp only [List.cons_append, fwdRun]
    cases h : fwdStep s l with
    | none => simp
    | some s1 => simp [ih]

/-- The release step of `forward`, when enabled, consumes one `errc`
value and closes both connections. -/
theorem fwdStep_closeBoth_eq (s : FwdState) (hc : s.connsClosed = false)
    (he : 1 ≤ s.errc) :
    fwdStep s FwdLabel.closeBoth
      = some { s with errc := s.errc - 1, connsClosed := true } := by
  simp [fwdStep, hc, he]

/-- Event-count bookkeeping along any successful run of the `forward`
system: each copy goroutine finishes at most once (its running flag
absorbs the count), the connections are closed exactly as many times as
`closeBoth` occurs, and `errc` holds the finished copies' results minus
the values received. -/
theorem fwdRun_invariant (t : List FwdLabel) : ∀ s s' : FwdState,
    fwdRun s t = some s' →
    s.copyLRRunning.toNat = s'.copyLRRunning.toNat + t.count FwdLabel.doneLR ∧
    s.copyRLRunning.toNat = s'.copyRLRunning.toNat + t.count FwdLabel.doneRL ∧
    s'.connsClosed.toNat = s.connsClosed.toNat + t.count FwdLabel.closeBoth ∧
    s'.errc + t.count FwdLabel.closeBoth
      = s.errc + t.count FwdLabel.doneLR + t.count FwdLabel.doneRL := by
  induction t with
  | nil =>
    intro s s' h
    simp only [fwdRun, Option.some.injEq] at h
    subst h
    simp
  | cons l ls ih =>
    intro s s' h
    simp only [fwdRun] at h
    cases hstep : fwdStep s l with
    | none => rw [hstep] at h; exact absurd h (by simp)
    | some s1 =>
      rw [hstep] at h
      have hih := ih s1 s' h
      cases l with
      | doneLR =>
        by_cases hr : s.copyLRRunning
        · simp only [fwdStep, hr, if_true, Option.some.injEq] at hstep
          subst hstep
          simp only [hr, List.count_cons, Bool.toNat] at hih ⊢
          simp at hih ⊢
          omega
        · simp [fwdStep, hr] at hstep
      | doneRL =>
        by_cases hr : s.copyRLRunning
        · simp only [fwdStep, hr, if_true, Option.some.injEq] at hstep
          subst hstep
          simp only [hr, List.count_cons, Bool.toNat] at hih ⊢
          simp at hih ⊢
          omega
        · simp [fwdStep, hr] at hstep
      | closeBoth =>
        by_cases hc : s.connsClosed
        · simp [fwdStep, hc] at hstep
        · by_cases he : 1 ≤ s.errc
          · have hc' : s.connsClosed = false := by simpa using hc
            rw [fwdStep_closeBoth_eq s hc' he, Option.some.injEq] at hstep
            subst hstep
            simp only [hc', List.count_cons, Bool.toNat] at hih ⊢
            simp at hih ⊢
            omega
          · simp [fwdStep, hc, he] at hstep

/-! ### `forward` claims -/

/-- **C7** (counterexample).  A complete execution of `forward` in which
the first copy goroutine finishes, the main goroutine then receives from
`errc` and runs both deferred closes, and only afterwards does the second
copy goroutine terminate: the connection handles are released *before*
both copy tasks have terminated, refuting the claim as stated. -/
theorem forward_release_before_both_copies :
    fwdTraceOK [FwdLabel.doneLR, FwdLabel.closeBoth, FwdLabel.doneRL] = true ∧
    [FwdLabel.doneLR, FwdLabel.closeBoth, FwdLabel.doneRL]
      = [FwdLabel.doneLR] ++ FwdLabel.closeBoth :: [FwdLabel.doneRL] ∧
    FwdLabel.doneRL ∉ [FwdLabel.doneLR] := by decide

/-- **C7** (amended).  In every complete execution of `forward`, the two
connection handles are closed together in a single release event, which
occurs exactly once and only after at least one of the two copy
goroutines has finished; both copy goroutines terminate in the execution
(so no half-open connection and no leaked copy task remains), but the
second may terminate after the release, not before it. -/
theorem forward_both_closed_after_first_copy (t pre suf : List FwdLabel)
    (hok : fwdTraceOK t = true)
    (hdec : t = pre ++ FwdLabel.closeBoth :: suf) :
    (FwdLabel.doneLR ∈ pre ∨ FwdLabel.doneRL ∈ pre) ∧
    FwdLabel.doneLR ∈ t ∧ FwdLabel.doneRL ∈ t ∧
    FwdLabel.closeBoth ∉ pre ∧ FwdLabel.closeBoth ∉ suf := by
  unfold fwdTraceOK at hok
  cases hrun : fwdRun fwdInit t with
  | none => rw [hrun] at hok; exact absurd hok (by simp)
  | some s =>
    rw [hrun] at hok
    have hLR : s.copyLRRunning = false := by
      cases h : s.copyLRRunning <;> simp [h] at hok ⊢
    have hRL : s.copyRLRunning = false := by
      cases h : s.copyRLRunning <;> simp [h] at hok ⊢
    have hCl : s.connsClosed = true := by
      cases h : s.connsClosed <;> simp [h] at hok ⊢
    -- split the run at the close event
    rw [hdec, fwdRun_append] at hrun
    cases hpre : fwdRun fwdInit pre with
    | none => rw [hpre] at hrun; exact absurd hrun (by simp)
    | some s1 =>
      rw [hpre] at hrun
      cases hstep : fwdStep s1 FwdLabel.closeBoth with
      | none => simp [fwdRun, hstep] at hrun
      | some s2 =>
        simp only [fwdRun, hstep, Option.some_bind] at hrun
        -- the close step was enabled: conns open, errc nonempty
        have hc1 : s1.connsClosed = false := by
          by_contra hcc
          have hcc' : s1.connsClosed = true := by simpa using hcc
          simp [fwdStep, hcc'] at hstep
        have he1 : 1 ≤ s1.errc := by
          by_contra hee
          simp [fwdStep, hc1, hee] at hstep
        have hs1 : s1.connsClosed = false ∧ 1 ≤ s1.errc := ⟨hc1, he1⟩
        have hs2 : s2 = { s1 with errc := s1.errc - 1, connsClosed := true } := by
          rw [fwdStep_closeBoth_eq s1 hc1 he1, Option.some.injEq] at hstep
          exact hstep.symm
        have hinvPre := fwdRun_invariant pre fwdInit s1 hpre
        have hinvSuf := fwdRun_invariant suf s2 s hrun
        have hinvT := fwdRun_invariant t fwdInit s (by rw [hdec, fwdRun_append, hpre]; simp [fwdRun, hstep, hrun])
        refine ⟨?_, ?_, ?_, ?_, ?_⟩
        · -- at least one copy finished before the close: errc came from somewhere
          have : 1 ≤ pre.count FwdLabel.doneLR + pre.count FwdLabel.doneRL := by
            have h4 := hinvPre.2.2.2
            simp only [fwdInit] at h4
            omega
          by_cases hmem : FwdLabel.doneLR ∈ pre
          · exact Or.inl hmem
          · right
            have hz : pre.count FwdLabel.doneLR = 0 := List.count_eq_zero.mpr hmem
            have : pre.count FwdLabel.doneRL ≠ 0 := by omega
            by_contra hmem2
            exact this (List.count_eq_zero.mpr hmem2)
        · -- the LR copy terminates in the whole trace
          have h1 := hinvT.1
          simp only [fwdInit, hLR] at h1
          have : t.count FwdLabel.doneLR ≠ 0 := by
            simp only [Bool.toNat] at h1; simp at h1; omega
          by_contra hmem
          exact this (List.count_eq_zero.mpr hmem)
        · have h2 := hinvT.2.1
          simp only [fwdInit, hRL] at h2
          have : t.count FwdLabel.doneRL ≠ 0 := by
            simp only [Bool.toNat] at h2; simp at h2; omega
          by_contra hmem
          exact this (List.count_eq_zero.mpr hmem)
        · -- no close event before the close event
          have h3 := hinvPre.2.2.1
          simp only [fwdInit, hs1.1] at h3
          have : pre.count FwdLabel.closeBoth = 0 := by
            simp only [Bool.toNat] at h3; simp at h3; omega
          exact List.count_eq_zero.mp this
        · -- and none after it either
          have h3 := hinvSuf.2.2.1
          rw [hs2] at h3
          simp only [hCl] at h3
          have : suf.count FwdLabel.closeBoth = 0 := by
            simp only [Bool.toNat] at h3; simp at h3; omega
          exact List.count_eq_zero.mp this

/-- Witness for the amended C7: the execution in which the relay's close
happens between the two copy terminations. -/
theorem forward_both_closed_after_first_copy_witness :
    (FwdLabel.doneLR ∈ [FwdLabel.doneLR] ∨ FwdLabel.doneRL ∈ [FwdLabel.doneLR]) ∧
    FwdLabel.doneLR ∈ [FwdLabel.doneLR, FwdLabel.closeBoth, FwdLabel.doneRL] ∧
    FwdLabel.doneRL ∈ [FwdLabel.doneLR, FwdLabel.closeBoth, FwdLabel.doneRL] ∧
    FwdLabel.closeBoth ∉ [FwdLabel.doneLR] ∧
    FwdLabel.closeBoth ∉ [FwdLabel.doneRL] :=
  forward_both_closed_after_first_copy
    [FwdLabel.doneLR, FwdLabel.closeBoth, FwdLabel.doneRL]
    [FwdLabel.doneLR] [FwdLabel.doneRL] (by decide) rfl

end Drillbit
